import Mathlib

/-!
Verification of the layout/offset engine of the Solana memory viewer
(src/components/memory-viewer.tsx), shallowly embedded in Lean.

JavaScript numbers that hold integers are modelled as `Int` (with `Option Int`
where `NaN`/`undefined` can flow); strings as `String`; byte values as `Int`.
JavaScript `%` on numbers truncates towards zero, so it is modelled by
`Int.tmod`; `Math.ceil(a / b)` is modelled by `jsCeilDiv` (characterised by
`jsCeilDiv_isCeil` below).
-/

set_option maxRecDepth 8000

/-! ## Models of the JavaScript primitives used by the component -/

/-- Occurrence of a character pattern in a character list (helper for
`containsSubstr`). -/
def occursIn (pat : List Char) : List Char → Bool
  | [] => pat.isPrefixOf []
  | c :: rest => pat.isPrefixOf (c :: rest) || occursIn pat rest

/-- Models `s.includes(pat)` of JavaScript for the non-empty patterns the
component uses. -/
def containsSubstr (s pat : String) : Bool := occursIn pat.data s.data

/-- Models `s.split(c)` of JavaScript for a single-character separator,
including empty parts. -/
def splitChar (c : Char) : List Char → List (List Char)
  | [] => [[]]
  | x :: xs =>
    if x = c then [] :: splitChar c xs
    else
      match splitChar c xs with
      | h :: t => (x :: h) :: t
      | [] => [[x]]

/-- Numeric value of a run of decimal digit characters. -/
def digitsVal (ds : List Char) : Nat := ds.foldl (fun a c => a * 10 + (c.toNat - 48)) 0

/-- Models `parseInt(s, 10)` of JavaScript: skip leading whitespace, optional
sign, then the maximal leading run of decimal digits; `none` models `NaN`. -/
def jsParseInt (s : String) : Option Int :=
  let cs := s.data.dropWhile Char.isWhitespace
  let signAndRest : Int × List Char :=
    match cs with
    | '-' :: rest => (-1, rest)
    | '+' :: rest => (1, rest)
    | _ => (1, cs)
  let ds := signAndRest.2.takeWhile Char.isDigit
  if ds.isEmpty then none else some (signAndRest.1 * (digitsVal ds : Int))

/-- Models the JavaScript expression `x || d` for a number `x` that may be
`undefined` (`none`): `undefined` and `0` are falsy, every other integer is
truthy. -/
def jsOrDefault (x : Option Int) (d : Int) : Int :=
  match x with
  | none => d
  | some v => if v = 0 then d else v

/-- Models JavaScript array indexing `l[i]` where the index is a number that
may be `NaN` (`none`) or out of range; the result may be `undefined`
(`none`). -/
def jsIndex (l : List Int) (i : Option Int) : Option Int :=
  match i with
  | none => none
  | some v => if 0 ≤ v then l[v.toNat]? else none

/-- Models JavaScript string interpolation of a number (`none` models `NaN`,
which prints as "NaN"). -/
def jsNumToString (x : Option Int) : String :=
  match x with
  | none => "NaN"
  | some v => toString v

/-- Models `Math.ceil(a / b)` for `b > 0`; see `jsCeilDiv_isCeil`. -/
def jsCeilDiv (a b : Int) : Int := (a + b - 1) / b

/-- Models `v.toString(16)` of a JavaScript integer. -/
def jsToHex (v : Int) : String :=
  if v < 0 then "-" ++ (Nat.toDigits 16 (-v).toNat).asString
  else (Nat.toDigits 16 v.toNat).asString

/-- Models `s.padStart(2, '0')`. -/
def padStart2 (s : String) : String :=
  if s.length ≥ 2 then s else ⟨List.replicate (2 - s.length) '0' ++ s.data⟩

/-- Models `v.toString(16).padStart(2, '0')`, the byte display format. -/
def hex2 (v : Int) : String := padStart2 (jsToHex v)

/-- Models `new Uint8Array(new BigUint64Array([BigInt(v)]).buffer)`: the eight
bytes of the unsigned 64-bit little-endian encoding of `v` mod `2 ^ 64`. -/
def leBytes64 (v : Int) : List Int :=
  (List.range 8).map (fun j => (v % (2 ^ 64)) / (2 ^ (8 * j)) % 256)

/-! ## The data model (region catalog) of memory-viewer.tsx -/

/-- Structure `MemorySection` of the source; the source field `end` is renamed
`endAddr` (`end` is reserved in Lean), `start` is `startAddr`. -/
structure MemorySection where
  startAddr : Int
  endAddr : Int
  name : String
deriving DecidableEq

structure SubRegion where
  name : String
  size : Int
  color : String
deriving DecidableEq

structure Region where
  name : String
  size : Int
  color : String
  isPadding : Bool
  subRegions : List SubRegion
  isDynamic : Bool := false
deriving DecidableEq

def MEMORY_SECTIONS : List MemorySection :=
  [ { startAddr := 0x100000000, endAddr := 0x1FFFFFFFF, name := "Program code" },
    { startAddr := 0x200000000, endAddr := 0x2FFFFFFFF, name := "Stack data" },
    { startAddr := 0x300000000, endAddr := 0x3FFFFFFFF, name := "Heap data" },
    { startAddr := 0x400000000, endAddr := 0x4FFFFFFFF, name := "Program input parameters" } ]

def PROGRAM_REGIONS : List Region :=
  [ { name := "Number of accounts", size := 8, color := "bg-blue-400", isPadding := false, subRegions := [] },
    { name := "Instruction data size", size := 8, color := "bg-cyan-400", isPadding := false, subRegions := [] },
    { name := "Instruction data", size := 32, color := "bg-lime-400", isDynamic := true, isPadding := false, subRegions := [] },
    { name := "Program ID", size := 32, color := "bg-amber-400", isPadding := false, subRegions := [] } ]

def ACCOUNT_REGIONS : List Region :=
  [ { name := "Account Flags", size := 4, color := "bg-green-400", isPadding := false,
      subRegions :=
        [ { name := "Is Duplicate", size := 1, color := "bg-green-300" },
          { name := "Is Signer", size := 1, color := "bg-green-400" },
          { name := "Is Writable", size := 1, color := "bg-green-500" },
          { name := "Is Executable", size := 1, color := "bg-green-600" } ] },
    { name := "Padding 1", size := 4, color := "bg-gray-400", isPadding := true, subRegions := [] },
    { name := "Public keys", size := 64, color := "bg-purple-400", isPadding := false,
      subRegions :=
        [ { name := "Account Pub Key", size := 32, color := "bg-indigo-400" },
          { name := "Account Owner Pub Key", size := 32, color := "bg-violet-400" } ] },
    { name := "Lamports", size := 8, color := "bg-red-400", isPadding := false, subRegions := [] },
    { name := "Account data size", size := 8, color := "bg-indigo-400", isPadding := false, subRegions := [] },
    { name := "Account data", size := 32, color := "bg-pink-400", isDynamic := true, isPadding := false, subRegions := [] },
    { name := "Realloc padding", size := 10240, color := "bg-gray-500", isPadding := true, subRegions := [] },
    { name := "Rent epoch", size := 8, color := "bg-teal-400", isPadding := false, subRegions := [] } ]

def BYTES_PER_ROW : Int := 16
def MIN_ROWS : Int := 16

/-- The component state held by the React hooks that the engine functions
read (`selectedView` and the list ref play no part in the claims). -/
structure State where
  selectedSection : MemorySection
  focusedRegion : Option String
  accountDataSizes : List Int
  instructionDataSize : Int
  numberOfAccounts : Nat

/-! ## The layout engine of memory-viewer.tsx -/

/-- The template-literal name `Account (k): (base)` used to disambiguate
per-account regions. -/
def acctName (k : Int) (base : String) : String :=
  "Account " ++ toString k ++ ": " ++ base

/-- One instantiation step of the per-account template inside
`programInputRegions`: spread the template region, replace the name by the
disambiguated name, and for "Account data" substitute
`accountDataSizes[index] || 32`. -/
def instantiateAccountRegion (accountDataSizes : List Int) (index : Nat) (region : Region) : Region :=
  { region with
      name := acctName ((index : Int) + 1) region.name
      size := if region.name = "Account data"
              then jsOrDefault accountDataSizes[index]? 32
              else region.size }

/-- Function `programInputRegions` of the source: the expanded layout for the current
parameters — `PROGRAM_REGIONS.slice(0, 1)`, then the per-account template
instantiated once per account, then `PROGRAM_REGIONS.slice(1)` with the
instruction data size substituted. -/
def programInputRegions (numberOfAccounts : Nat) (accountDataSizes : List Int)
    (instructionDataSize : Int) : List Region :=
  PROGRAM_REGIONS.take 1 ++
    ((List.range numberOfAccounts).flatMap
      (fun index => ACCOUNT_REGIONS.map (instantiateAccountRegion accountDataSizes index))) ++
    (PROGRAM_REGIONS.drop 1).map (fun region =>
      if region.name = "Instruction data"
      then { region with size := instructionDataSize }
      else region)

/-- The expanded layout for a component state. -/
def stRegions (st : State) : List Region :=
  programInputRegions st.numberOfAccounts st.accountDataSizes st.instructionDataSize

/-- Function `totalNamedRegionSize` of the source: `reduce((sum, r) => sum + r.size, 0)`. -/
def totalNamedRegionSize (regions : List Region) : Int :=
  regions.foldl (fun sum region => sum + region.size) 0

/-- Function `maxRows` of the source: `Math.ceil(totalNamedRegionSize / BYTES_PER_ROW) + 1`. -/
def maxRows (st : State) : Int :=
  jsCeilDiv (totalNamedRegionSize (stRegions st)) BYTES_PER_ROW + 1

/-- Function `totalRows` of the source. -/
def totalRows (st : State) : Int :=
  if st.selectedSection.name = "Program input parameters" then
    max MIN_ROWS (maxRows st)
  else
    max MIN_ROWS (jsCeilDiv (st.selectedSection.endAddr - st.selectedSection.startAddr + 1) BYTES_PER_ROW)

/-- Loop body of `getRegionOffset`, accumulating the running offset. -/
def getRegionOffsetAux (regionName : String) : Int → List Region → Int
  | _, [] => -1
  | offset, region :: rest =>
    if region.name = regionName then offset
    else getRegionOffsetAux regionName (offset + region.size) rest

/-- Function `getRegionOffset` of the source: running-sum offset of the first region
whose name matches exactly, `-1` when there is none. -/
def getRegionOffset (regions : List Region) (regionName : String) : Int :=
  getRegionOffsetAux regionName 0 regions

/-- The index-recovery expression
`parseInt(focusedRegion.split(':')[0].split(' ')[1])` of `getMemoryValue`. -/
def parsedUnitNumber (f : String) : Option Int :=
  match (splitChar ' ' ((splitChar ':' f.data).headD [])).get? 1 with
  | none => none
  | some tok => jsParseInt ⟨tok⟩

/-- Function `getMemoryValue` of the source: the two-hex-digit display value of the
byte at `index`. -/
def getMemoryValue (st : State) (index : Int) : String :=
  if st.selectedSection.name = "Program input parameters" then
    match st.focusedRegion with
    | some f =>
      if containsSubstr f "Account data size" then
        let accountIndex : Option Int := (parsedUnitNumber f).map (fun v => v - 1)
        let offset := getRegionOffset (stRegions st)
          ("Account " ++ jsNumToString (accountIndex.map (fun v => v + 1)) ++ ": Account data size")
        if offset ≤ index ∧ index < offset + 8 then
          hex2 ((leBytes64 (jsOrDefault (jsIndex st.accountDataSizes accountIndex) 32)).getD (index - offset).toNat 0)
        else hex2 (index.tmod 256)
      else if f = "Instruction data size" then
        let offset := getRegionOffset (stRegions st) "Instruction data size"
        if offset ≤ index ∧ index < offset + 8 then
          hex2 ((leBytes64 st.instructionDataSize).getD (index - offset).toNat 0)
        else hex2 (index.tmod 256)
      else if f = "Number of accounts" then
        let offset := getRegionOffset (stRegions st) "Number of accounts"
        if offset ≤ index ∧ index < offset + 8 then
          hex2 ((leBytes64 (st.numberOfAccounts : Int)).getD (index - offset).toNat 0)
        else hex2 (index.tmod 256)
      else hex2 (index.tmod 256)
    | none => hex2 (index.tmod 256)
  else hex2 (index.tmod 256)

/-- The inner sub-region loop of `getRegionColor`, scanning at absolute
offsets. -/
def subRegionScan (byteOffset : Int) : Int → List SubRegion → Option String
  | _, [] => none
  | subRegionOffset, s :: rest =>
    if subRegionOffset ≤ byteOffset ∧ byteOffset < subRegionOffset + s.size then some s.color
    else subRegionScan byteOffset (subRegionOffset + s.size) rest

/-- The region loop of `getRegionColor`, accumulating the running offset. -/
def getRegionColorAux (focused : Option String) (byteOffset : Int) : Int → List Region → String
  | _, [] => "bg-gray-800"
  | currentOffset, region :: rest =>
    if currentOffset ≤ byteOffset ∧ byteOffset < currentOffset + region.size then
      match focused with
      | some f =>
        if containsSubstr f "Account data size" && containsSubstr region.name "Account data" then
          region.color ++ " opacity-50"
        else if f = "Instruction data size" ∧ region.name = "Instruction data" then
          region.color ++ " opacity-50"
        else
          match (if f = region.name then subRegionScan byteOffset currentOffset region.subRegions else none) with
          | some c => c
          | none => if f = region.name then region.color else "bg-gray-700"
      | none => if region.isPadding then region.color ++ " crosshatch" else region.color
    else
      getRegionColorAux focused byteOffset (currentOffset + region.size) rest

/-- Function `getRegionColor` of the source. -/
def getRegionColor (st : State) (byteOffset : Int) : String :=
  if st.selectedSection.name ≠ "Program input parameters" then "bg-gray-800"
  else getRegionColorAux st.focusedRegion byteOffset 0 (stRegions st)

/-- Function `toLittleEndian` of the source: hex byte dump of the 64-bit little-endian
encoding, space separated. -/
def toLittleEndian (num : Int) : String :=
  String.intercalate " " ((leBytes64 num).map hex2)

/-- Handler `handleAccountDataSizeChange` of the source. The assignment
`newSizes[accountIndex] = v` is modelled by `List.set`; the component only
invokes it with `accountIndex` below the list length, where the two agree. -/
def handleAccountDataSizeChange (st : State) (input : String) (accountIndex : Nat) : State :=
  let value := jsParseInt input
  { st with accountDataSizes :=
      st.accountDataSizes.set accountIndex (match value with | none => 0 | some v => v) }

/-- Handler `handleInstructionDataSizeChange` of the source. -/
def handleInstructionDataSizeChange (st : State) (input : String) : State :=
  let value := jsParseInt input
  { st with instructionDataSize := match value with | none => 0 | some v => v }

/-- Iterated `push(32)`; each iteration of the source's while loop appends one
default entry and grows the length by one. -/
def padLoop : Nat → List Int → List Int
  | 0, l => l
  | k + 1, l => padLoop k (l ++ [32])

/-- The `while (newSizes.length < n) newSizes.push(32)` loop of
`handleNumberOfAccountsChange`: it runs exactly `n - length` times. -/
def padSizesTo (l : List Int) (n : Nat) : List Int :=
  padLoop (n - l.length) l

/-- Handler `handleNumberOfAccountsChange` of the source. -/
def handleNumberOfAccountsChange (st : State) (input : String) : State :=
  let value := jsParseInt input
  let newNumberOfAccounts : Nat :=
    match value with
    | none => 0
    | some v => (min (max v 0) 64).toNat
  { st with
      numberOfAccounts := newNumberOfAccounts,
      accountDataSizes := (padSizesTo st.accountDataSizes newNumberOfAccounts).take newNumberOfAccounts }

/-- The initial hook state of the component (`MEMORY_SECTIONS[3]` selected,
nothing focused, one account of data size 32, instruction data size 32). -/
def initialState : State :=
  { selectedSection := (MEMORY_SECTIONS[3]?).getD ⟨0, 0, ""⟩
    focusedRegion := none
    accountDataSizes := [32]
    instructionDataSize := 32
    numberOfAccounts := 1 }

/-- The names of the expanded layout, which depend only on the unit count. -/
def layoutNames (n : Nat) : List String :=
  "Number of accounts" ::
    (((List.range n).flatMap
        (fun i : Nat => ACCOUNT_REGIONS.map (fun r => acctName ((i : Int) + 1) r.name))) ++
      ["Instruction data size", "Instruction data", "Program ID"])

/-- Concrete state used to exercise the focused per-unit size field: two
accounts, the second with data size 5, its size field focused. -/
def c4State : State :=
  { initialState with
      numberOfAccounts := 2
      accountDataSizes := [32, 5]
      focusedRegion := some "Account 2: Account data size" }

/-- Concrete state exercising the color precedence: two accounts with default
sizes, unit 1's data-size field focused. -/
def c6State : State :=
  { initialState with
      numberOfAccounts := 2
      accountDataSizes := [32, 32]
      focusedRegion := some "Account 1: Account data size" }

/-! ## Spec-side definitions (written from the specification's wording, for
refinement comparison against the source functions) -/

/-- The spec's "second linear scan within the region's byte span", phrased on
the offset relative to the region start. -/
def subColorSpec : Int → List SubRegion → Option String
  | _, [] => none
  | rel, s :: rest =>
    if 0 ≤ rel ∧ rel < s.size then some s.color else subColorSpec (rel - s.size) rest

/-- The layout with materialised absolute offsets (running sum of the
preceding sizes). -/
def regionsWithOffsets : Int → List Region → List (Int × Region)
  | _, [] => []
  | acc, r :: rest => (acc, r) :: regionsWithOffsets (acc + r.size) rest

/-- The spec's "locate the owning region": the first region whose
half-open byte interval contains the offset. -/
def findOwner (regions : List Region) (byteOffset : Int) : Option (Int × Region) :=
  (regionsWithOffsets 0 regions).find?
    (fun p => decide (p.1 ≤ byteOffset ∧ byteOffset < p.1 + p.2.size))

/-- Modelled from the claim wording of C6 (original): the color precedence for
a byte owned by region `r` at absolute offset `off` while `f` is focused.
Rule (1) demands that `r` be the *corresponding* data field of a focused
dynamic-size field: the focused name is exactly `r`'s name extended by
" size" and `r` is dynamic. -/
def claimColor (f : String) (off : Int) (r : Region) (byteOffset : Int) : String :=
  if f = r.name ++ " size" ∧ r.isDynamic = true then r.color ++ " opacity-50"
  else if f = r.name ∧ r.subRegions ≠ [] then
    match subColorSpec (byteOffset - off) r.subRegions with
    | some c => c
    | none => r.color
  else if f = r.name then r.color
  else "bg-gray-700"

/-- The amended precedence: rule (1) fires whenever the focused name contains
"Account data size" and the owning region's name contains "Account data"
(true of every unit's data-size field and data field, not only the
corresponding unit's data field), or when "Instruction data size" is focused
and the owning region is "Instruction data"; rules (2)-(4) are unchanged. -/
def amendedColor (f : String) (off : Int) (r : Region) (byteOffset : Int) : String :=
  if (containsSubstr f "Account data size" && containsSubstr r.name "Account data") = true
     ∨ (f = "Instruction data size" ∧ r.name = "Instruction data") then
    r.color ++ " opacity-50"
  else if f = r.name ∧ r.subRegions ≠ [] then
    match subColorSpec (byteOffset - off) r.subRegions with
    | some c => c
    | none => r.color
  else if f = r.name then r.color
  else "bg-gray-700"

-- sanity checks on the embedding
example : totalNamedRegionSize (programInputRegions 1 [32] 32) = 10448 := by decide
example : totalRows initialState = 654 := by decide
example : getRegionOffset (programInputRegions 2 [32, 5] 32) "Account 2: Account data size" = 10456 := by decide
example : getMemoryValue initialState 100000 = "a0" := by decide
example : toLittleEndian 0x0102030405060708 = "08 07 06 05 04 03 02 01" := by decide
example : getMemoryValue { initialState with numberOfAccounts := 2, accountDataSizes := [32, 5], focusedRegion := some "Account 2: Account data size" } 10456 = "05" := by decide
example : getRegionColor { initialState with numberOfAccounts := 2, accountDataSizes := [32, 32], focusedRegion := some "Account 1: Account data size" } 88 = "bg-indigo-400 opacity-50" := by decide
example : getRegionColor { initialState with numberOfAccounts := 2, accountDataSizes := [32, 32], focusedRegion := some "Account 1: Account data size" } 10464 = "bg-pink-400 opacity-50" := by decide
example : (handleNumberOfAccountsChange { initialState with numberOfAccounts := 2, accountDataSizes := [10, 20] } "5").accountDataSizes = [10, 20, 32, 32, 32] := by decide
example : jsParseInt "abc" = none ∧ jsParseInt "-12" = some (-12) ∧ jsParseInt "  42xyz" = some 42 := by decide

/-! ## General lemmas -/

/-- Value `jsCeilDiv a 16` is the ceiling of the rational `a / 16`. -/
theorem jsCeilDiv_isCeil (a : Int) : 16 * jsCeilDiv a 16 - 16 < a ∧ a ≤ 16 * jsCeilDiv a 16 := by
  unfold jsCeilDiv; omega

theorem jsCeilDiv_16_form (a : Int) :
    jsCeilDiv a 16 = a / 16 + (if a % 16 = 0 then 0 else 1) := by
  unfold jsCeilDiv; split <;> omega

theorem tmod_256_of_nonneg (a : Int) (h : 0 ≤ a) : a.tmod 256 = a % 256 :=
  Int.tmod_eq_emod h (by omega)

theorem padLoop_eq (k : Nat) : ∀ l : List Int, padLoop k l = l ++ List.replicate k 32 := by
  induction k with
  | zero => intro l; simp [padLoop]
  | succ m ih =>
    intro l
    rw [padLoop, ih]
    simp [List.replicate_succ]

theorem padSizesTo_eq (l : List Int) (n : Nat) :
    padSizesTo l n = l ++ List.replicate (n - l.length) 32 := padLoop_eq _ l

theorem foldl_size (l : List Region) (a : Int) :
    l.foldl (fun sum region => sum + region.size) a = a + (l.map Region.size).sum := by
  induction l generalizing a with
  | nil => simp
  | cons r rest ih => simp only [List.foldl_cons, List.map_cons, List.sum_cons, ih]; ring

theorem totalNamedRegionSize_eq_sum (l : List Region) :
    totalNamedRegionSize l = (l.map Region.size).sum := by
  unfold totalNamedRegionSize; rw [foldl_size]; ring

/-! ## Name disambiguation: injectivity and uniqueness of layout names -/

theorem sep_append_inj {α : Type} (c : α) :
    ∀ (l₁ l₂ r₁ r₂ : List α), c ∉ l₁ → c ∉ l₂ →
      l₁ ++ c :: r₁ = l₂ ++ c :: r₂ → l₁ = l₂ ∧ r₁ = r₂ := by
  intro l₁
  induction l₁ with
  | nil =>
    intro l₂ r₁ r₂ h₁ h₂ heq
    cases l₂ with
    | nil => simpa using heq
    | cons x xs =>
      exfalso
      simp only [List.nil_append, List.cons_append, List.cons.injEq] at heq
      apply h₂
      rw [heq.1]
      exact List.mem_cons_self x xs
  | cons a as ih =>
    intro l₂ r₁ r₂ h₁ h₂ heq
    cases l₂ with
    | nil =>
      exfalso
      simp only [List.cons_append, List.nil_append, List.cons.injEq] at heq
      apply h₁
      rw [← heq.1]
      exact List.mem_cons_self a as
    | cons x xs =>
      simp only [List.cons_append, List.cons.injEq] at heq
      obtain ⟨rfl, htl⟩ := heq
      have h₁' : c ∉ as := fun h => h₁ (List.mem_cons_of_mem _ h)
      have h₂' : c ∉ xs := fun h => h₂ (List.mem_cons_of_mem _ h)
      obtain ⟨e1, e2⟩ := ih xs r₁ r₂ h₁' h₂' htl
      exact ⟨by rw [e1], e2⟩

theorem string_data_inj {s t : String} (h : s.data = t.data) : s = t :=
  congrArg String.mk h

theorem acctName_inj (k₁ k₂ : Int) (b₁ b₂ : String)
    (h₁ : ':' ∉ (toString k₁).data) (h₂ : ':' ∉ (toString k₂).data)
    (h : acctName k₁ b₁ = acctName k₂ b₂) :
    toString k₁ = toString k₂ ∧ b₁ = b₂ := by
  have hd := congrArg String.data h
  simp only [acctName, String.data_append, List.append_assoc] at hd
  have hd₂ := List.append_cancel_left hd
  obtain ⟨e1, e2⟩ := sep_append_inj ':' (toString k₁).data (toString k₂).data
    (' ' :: b₁.data) (' ' :: b₂.data) h₁ h₂ hd₂
  refine ⟨string_data_inj e1, string_data_inj ?_⟩
  injection e2

theorem colon_not_mem_toString : ∀ k : Nat, k < 64 → ':' ∉ (toString ((k : Int) + 1)).data := by
  decide

theorem toString_index_nodup :
    ((List.range 64).map (fun i : Nat => toString ((i : Int) + 1))).Nodup := by decide

theorem index_str_inj (i j : Nat) (hi : i < 64) (hj : j < 64)
    (h : toString ((i : Int) + 1) = toString ((j : Int) + 1)) : i = j := by
  have key := (List.nodup_map_iff_inj_on (List.nodup_range 64)).mp toString_index_nodup
  exact key i (List.mem_range.mpr hi) j (List.mem_range.mpr hj) h

theorem acctName_ne_fixed :
    ∀ k : Nat, k < 64 → ∀ b ∈ ACCOUNT_REGIONS.map Region.name,
      acctName ((k : Int) + 1) b ∉
        ["Number of accounts", "Instruction data size", "Instruction data", "Program ID"] := by
  decide

theorem account_base_names_nodup : (ACCOUNT_REGIONS.map Region.name).Nodup := by decide

theorem map_name_programInputRegions (n : Nat) (sizes : List Int) (instr : Int) :
    (programInputRegions n sizes instr).map Region.name = layoutNames n := by
  have hinner : ∀ i : Nat,
      (ACCOUNT_REGIONS.map (instantiateAccountRegion sizes i)).map Region.name =
        ACCOUNT_REGIONS.map (fun r => acctName ((i : Int) + 1) r.name) := fun i => rfl
  simp only [programInputRegions, layoutNames, List.map_append, List.map_flatMap, hinner]
  rfl

theorem block_names_nodup (n : Nat) (hn : n ≤ 64) :
    ((List.range n).flatMap
      (fun i : Nat => ACCOUNT_REGIONS.map (fun r => acctName ((i : Int) + 1) r.name))).Nodup := by
  rw [List.nodup_flatMap]
  constructor
  · intro i hi
    apply account_base_names_nodup.map_on
    intro x hx y hy hxy
    have hi64 : i < 64 := lt_of_lt_of_le (List.mem_range.mp hi) hn
    exact (acctName_inj _ _ _ _ (colon_not_mem_toString i hi64)
      (colon_not_mem_toString i hi64) hxy).2
  · have hp := List.pairwise_lt_range n
    refine hp.imp_of_mem ?_
    intro i j hi hj hij
    have hi64 : i < 64 := lt_of_lt_of_le (List.mem_range.mp hi) hn
    have hj64 : j < 64 := lt_of_lt_of_le (List.mem_range.mp hj) hn
    show List.Disjoint _ _
    intro nm hmi hmj
    simp only [List.mem_map] at hmi hmj
    obtain ⟨r₁, _, rfl⟩ := hmi
    obtain ⟨r₂, _, heq⟩ := hmj
    have hk := (acctName_inj _ _ _ _ (colon_not_mem_toString j hj64)
      (colon_not_mem_toString i hi64) heq).1
    exact absurd (index_str_inj j i hj64 hi64 hk) (by omega)

theorem mem_block_names {n : Nat} {nm : String}
    (h : nm ∈ (List.range n).flatMap
      (fun i : Nat => ACCOUNT_REGIONS.map (fun r => acctName ((i : Int) + 1) r.name))) :
    ∃ i, i < n ∧ ∃ r ∈ ACCOUNT_REGIONS, nm = acctName ((i : Int) + 1) r.name := by
  simp only [List.mem_flatMap, List.mem_map, List.mem_range] at h
  obtain ⟨i, hi, r, hr, rfl⟩ := h
  exact ⟨i, hi, r, hr, rfl⟩

theorem layoutNames_nodup (n : Nat) (hn : n ≤ 64) : (layoutNames n).Nodup := by
  rw [layoutNames, List.nodup_cons]
  constructor
  · intro hmem
    rw [List.mem_append] at hmem
    rcases hmem with h | h
    · obtain ⟨i, hi, r, hr, heq⟩ := mem_block_names h
      apply acctName_ne_fixed i (lt_of_lt_of_le hi hn) r.name
        (List.mem_map_of_mem Region.name hr)
      rw [← heq]
      exact List.mem_cons_self _ _
    · exact absurd h (by decide)
  · refine (block_names_nodup n hn).append (by decide) ?_
    intro nm hmb hmt
    obtain ⟨i, hi, r, hr, rfl⟩ := mem_block_names hmb
    apply acctName_ne_fixed i (lt_of_lt_of_le hi hn) r.name
      (List.mem_map_of_mem Region.name hr)
    simp only [List.mem_cons, List.not_mem_nil, or_false] at hmt ⊢
    tauto

/-- Names in the expanded layout are unique (for any unit count the component
can reach). -/
theorem layout_names_nodup (n : Nat) (hn : n ≤ 64) (sizes : List Int) (instr : Int) :
    ((programInputRegions n sizes instr).map Region.name).Nodup := by
  rw [map_name_programInputRegions]
  exact layoutNames_nodup n hn

/-! ## Lengths, sums and indexing of the expanded layout -/

theorem flatMap_fixed_length {α : Type} (g : Nat → List α) (L : Nat)
    (hg : ∀ i, (g i).length = L) :
    ∀ n, ((List.range n).flatMap g).length = L * n := by
  intro n
  induction n with
  | zero => rfl
  | succ m ih =>
    rw [List.range_succ, List.flatMap_append, List.length_append, ih]
    simp only [List.flatMap_cons, List.flatMap_nil, List.append_nil, hg]
    ring

theorem flatMap_fixed_getElem? {α : Type} (g : Nat → List α) (L : Nat)
    (hg : ∀ i, (g i).length = L) :
    ∀ (n i j : Nat), i < n → j < L → ((List.range n).flatMap g)[L * i + j]? = (g i)[j]? := by
  intro n
  induction n with
  | zero => intro i j hi _; exact absurd hi (Nat.not_lt_zero i)
  | succ m ih =>
    intro i j hi hj
    rw [List.range_succ, List.flatMap_append]
    by_cases him : i < m
    · rw [List.getElem?_append_left]
      · exact ih i j him hj
      · rw [flatMap_fixed_length g L hg m]
        calc L * i + j < L * i + L := by omega
          _ = L * (i + 1) := by ring
          _ ≤ L * m := Nat.mul_le_mul_left L him
    · have hieq : i = m := by omega
      subst hieq
      rw [List.getElem?_append_right (by rw [flatMap_fixed_length g L hg i]; omega)]
      rw [flatMap_fixed_length g L hg i]
      simp only [List.flatMap_cons, List.flatMap_nil, List.append_nil,
        Nat.add_sub_cancel_left]

theorem length_block (sizes : List Int) (n : Nat) :
    ((List.range n).flatMap
      (fun index => ACCOUNT_REGIONS.map (instantiateAccountRegion sizes index))).length
      = 8 * n :=
  flatMap_fixed_length (fun index => ACCOUNT_REGIONS.map (instantiateAccountRegion sizes index))
    8 (fun _ => rfl) n

theorem length_programInputRegions (n : Nat) (sizes : List Int) (instr : Int) :
    (programInputRegions n sizes instr).length = 4 + 8 * n := by
  simp only [programInputRegions, List.length_append, length_block, List.length_map]
  have h1 : (List.take 1 PROGRAM_REGIONS).length = 1 := rfl
  have h3 : (List.drop 1 PROGRAM_REGIONS).length = 3 := rfl
  omega

theorem layout_block_getElem? (n : Nat) (sizes : List Int) (instr : Int) (i j : Nat)
    (hi : i < n) (hj : j < 8) :
    (programInputRegions n sizes instr)[1 + (8 * i + j)]? =
      (ACCOUNT_REGIONS.map (instantiateAccountRegion sizes i))[j]? := by
  rw [programInputRegions, List.append_assoc]
  rw [List.getElem?_append_right (by simp [PROGRAM_REGIONS])]
  have hidx : 1 + (8 * i + j) - (PROGRAM_REGIONS.take 1).length = 8 * i + j := by
    simp [PROGRAM_REGIONS]
  rw [hidx]
  rw [List.getElem?_append_left]
  · exact flatMap_fixed_getElem?
      (fun index => ACCOUNT_REGIONS.map (instantiateAccountRegion sizes index))
      8 (fun _ => rfl) n i j hi hj
  · rw [length_block]
    calc 8 * i + j < 8 * i + 8 := by omega
      _ = 8 * (i + 1) := by ring
      _ ≤ 8 * n := Nat.mul_le_mul_left 8 hi

theorem sum_one_block (sizes : List Int) (m : Nat) :
    (((ACCOUNT_REGIONS.map (instantiateAccountRegion sizes m)).map Region.size)).sum =
      10336 + jsOrDefault sizes[m]? 32 := by
  simp [ACCOUNT_REGIONS, instantiateAccountRegion]
  ring

theorem sum_block (sizes : List Int) (n : Nat) :
    (((List.range n).flatMap
        (fun index => ACCOUNT_REGIONS.map (instantiateAccountRegion sizes index))).map
      Region.size).sum =
      ((List.range n).map (fun i => 10336 + jsOrDefault sizes[i]? 32)).sum := by
  induction n with
  | zero => rfl
  | succ m ih =>
    rw [List.range_succ, List.flatMap_append, List.map_append, List.sum_append, ih,
      List.map_append, List.sum_append]
    simp only [List.flatMap_cons, List.flatMap_nil, List.append_nil, List.map_cons,
      List.map_nil, List.sum_cons, List.sum_nil, sum_one_block]
    ring

theorem totalSize_formula (n : Nat) (sizes : List Int) (instr : Int) :
    totalNamedRegionSize (programInputRegions n sizes instr) =
      (8 + 8 + instr + 32) +
        ((List.range n).map (fun i => 10336 + jsOrDefault sizes[i]? 32)).sum := by
  rw [totalNamedRegionSize_eq_sum, programInputRegions]
  simp only [List.map_append, List.sum_append, sum_block]
  have h1 : (((PROGRAM_REGIONS.take 1).map Region.size)).sum = 8 := rfl
  have h3 : ((((PROGRAM_REGIONS.drop 1).map (fun region =>
      if region.name = "Instruction data"
      then { region with size := instr }
      else region)).map Region.size)).sum = 8 + instr + 32 := by
    simp [PROGRAM_REGIONS]
    ring
  rw [h1, h3]
  ring

/-! ## Offsets: first-match semantics of getRegionOffset -/

theorem getRegionOffsetAux_firstIndex (nm : String) :
    ∀ (l : List Region) (acc : Int) (i : Nat) (r : Region),
      l[i]? = some r → r.name = nm →
      (∀ j r', j < i → l[j]? = some r' → r'.name ≠ nm) →
      getRegionOffsetAux nm acc l = acc + ((l.take i).map Region.size).sum := by
  intro l
  induction l with
  | nil => intro acc i r h _ _; simp at h
  | cons x xs ih =>
    intro acc i r h hname hfirst
    cases i with
    | zero =>
      rw [List.getElem?_cons_zero, Option.some.injEq] at h
      subst h
      simp only [getRegionOffsetAux, if_pos hname]
      simp
    | succ i' =>
      have hx : x.name ≠ nm := hfirst 0 x (Nat.succ_pos i') List.getElem?_cons_zero
      simp only [getRegionOffsetAux, if_neg hx]
      rw [ih (acc + x.size) i' r (by simpa using h) hname ?_]
      · simp only [List.take_succ_cons, List.map_cons, List.sum_cons]
        ring
      · intro j r' hj hget
        exact hfirst (j + 1) r' (Nat.succ_lt_succ hj) (by simpa using hget)

theorem getRegionOffset_of_firstIndex (l : List Region) (nm : String) (i : Nat) (r : Region)
    (h : l[i]? = some r) (hname : r.name = nm)
    (hfirst : ∀ j r', j < i → l[j]? = some r' → r'.name ≠ nm) :
    getRegionOffset l nm = ((l.take i).map Region.size).sum := by
  rw [getRegionOffset, getRegionOffsetAux_firstIndex nm l 0 i r h hname hfirst, zero_add]

theorem getRegionOffset_of_nodup (l : List Region) (i : Nat) (r : Region)
    (hnd : (l.map Region.name).Nodup) (h : l[i]? = some r) :
    getRegionOffset l r.name = ((l.take i).map Region.size).sum := by
  apply getRegionOffset_of_firstIndex l r.name i r h rfl
  intro j r' hj hget hname
  have hne := List.nodup_iff_getElem?_ne_getElem?.mp hnd j i hj
    (by rw [List.length_map]; exact (List.getElem?_eq_some_iff.mp h).1)
  apply hne
  rw [List.getElem?_map, List.getElem?_map, h, hget]
  simp [hname]

/-! ## C1: expansion and total size -/

/-- C1: for every unit count up to 64 and all size parameters, the expansion
has exactly 4 + 8n regions; the i-th instantiation of the 8-region per-unit
template carries the 1-based name prefix "Account (i+1): " on every template
name; all names are unique; the total layout size is the sum of the four
non-repeated regions (8 + 8 + instructionDataSize + 32) plus, per unit, the
per-unit template total 10336 plus that unit's substituted dynamic size; in
particular one unit with both dynamic sizes 32 totals 10448. -/
theorem c1_expansion (n : Nat) (hn : n ≤ 64) (sizes : List Int) (instr : Int) :
    (programInputRegions n sizes instr).length = 4 + 8 * n ∧
    (∀ i j : Nat, i < n → j < 8 → ∀ t, ACCOUNT_REGIONS[j]? = some t →
      ((programInputRegions n sizes instr)[1 + (8 * i + j)]?).map Region.name =
        some (acctName ((i : Int) + 1) t.name)) ∧
    ((programInputRegions n sizes instr).map Region.name).Nodup ∧
    totalNamedRegionSize (programInputRegions n sizes instr) =
      (8 + 8 + instr + 32) +
        ((List.range n).map (fun i => 10336 + jsOrDefault sizes[i]? 32)).sum ∧
    totalNamedRegionSize (programInputRegions 1 [32] 32) = 10448 := by
  refine ⟨length_programInputRegions n sizes instr, ?_, layout_names_nodup n hn sizes instr,
    totalSize_formula n sizes instr, by decide⟩
  intro i j hi hj t ht
  rw [layout_block_getElem? n sizes instr i j hi hj, List.getElem?_map, ht]
  rfl

/-- Witness for C1: the spec's one-unit scenario. -/
theorem c1_expansion_witness :
    (programInputRegions 1 [32] 32).length = 12 ∧
    totalNamedRegionSize (programInputRegions 1 [32] 32) = 10448 :=
  ⟨(c1_expansion 1 (by omega) [32] 32).1, (c1_expansion 1 (by omega) [32] 32).2.2.2.2⟩

/-! ## C5: adjacency of offsets -/

/-- C5: in the expanded layout, for every adjacent pair of regions,
`getRegionOffset` of the first plus its size equals `getRegionOffset` of the
second (no gaps, no overlaps); when all size parameters are non-negative the
offsets are monotonically non-decreasing; and in general `getRegionOffset`
returns the running-sum offset of the first region (in layout order) whose
name matches exactly. -/
theorem c5_offsets_adjacent (n : Nat) (hn : n ≤ 64) (sizes : List Int) (instr : Int) :
    (∀ (i : Nat) (r r' : Region),
      (programInputRegions n sizes instr)[i]? = some r →
      (programInputRegions n sizes instr)[i + 1]? = some r' →
      getRegionOffset (programInputRegions n sizes instr) r.name + r.size =
        getRegionOffset (programInputRegions n sizes instr) r'.name) ∧
    ((∀ s ∈ sizes, 0 ≤ s) → 0 ≤ instr → ∀ (i : Nat) (r r' : Region),
      (programInputRegions n sizes instr)[i]? = some r →
      (programInputRegions n sizes instr)[i + 1]? = some r' →
      getRegionOffset (programInputRegions n sizes instr) r.name ≤
        getRegionOffset (programInputRegions n sizes instr) r'.name) ∧
    (∀ (l : List Region) (nm : String) (i : Nat) (r : Region),
      l[i]? = some r → r.name = nm →
      (∀ j r', j < i → l[j]? = some r' → r'.name ≠ nm) →
      getRegionOffset l nm = ((l.take i).map Region.size).sum) := by
  have hnd := layout_names_nodup n hn sizes instr
  have hadj : ∀ (i : Nat) (r r' : Region),
      (programInputRegions n sizes instr)[i]? = some r →
      (programInputRegions n sizes instr)[i + 1]? = some r' →
      getRegionOffset (programInputRegions n sizes instr) r.name + r.size =
        getRegionOffset (programInputRegions n sizes instr) r'.name := by
    intro i r r' h h'
    rw [getRegionOffset_of_nodup _ i r hnd h, getRegionOffset_of_nodup _ (i + 1) r' hnd h']
    have hlt : i + 1 < (programInputRegions n sizes instr).length :=
      (List.getElem?_eq_some_iff.mp h').1
    rw [List.take_succ, List.map_append, List.sum_append]
    have : (programInputRegions n sizes instr)[i]?.toList = [r] := by rw [h]; rfl
    rw [this]
    simp
  refine ⟨hadj, ?_, getRegionOffset_of_firstIndex⟩
  intro hszs hinstr i r r' h h'
  rw [← hadj i r r' h h']
  have hr : 0 ≤ r.size := by
    have hmem : r ∈ programInputRegions n sizes instr := List.getElem?_mem h
    rw [programInputRegions, List.mem_append, List.mem_append] at hmem
    rcases hmem with (h1 | h2) | h3
    · have : ∀ t ∈ List.take 1 PROGRAM_REGIONS, 0 ≤ t.size := by decide
      exact this r h1
    · rw [List.mem_flatMap] at h2
      obtain ⟨idx, _, hmm⟩ := h2
      rw [List.mem_map] at hmm
      obtain ⟨t, ht, heq⟩ := hmm
      rw [← heq, instantiateAccountRegion]
      simp only
      split
      · rcases hget : sizes[idx]? with _ | v
        · simp [jsOrDefault]
        · have hv : 0 ≤ v := hszs v (List.getElem?_mem hget)
          simp only [jsOrDefault]
          split <;> omega
      · have : ∀ t ∈ ACCOUNT_REGIONS, 0 ≤ t.size := by decide
        exact this t ht
    · rw [List.mem_map] at h3
      obtain ⟨t, ht, heq⟩ := h3
      rw [← heq]
      split
      · simpa using hinstr
      · have : ∀ t ∈ List.drop 1 PROGRAM_REGIONS, 0 ≤ t.size := by decide
        exact this t ht
  omega

/-- Witness for C5 at a concrete layout: the first two regions of the initial
layout ("Number of accounts" at 0 sized 8, then "Account 1: Account Flags"
at 8). -/
theorem c5_offsets_adjacent_witness :
    getRegionOffset (programInputRegions 1 [32] 32) "Number of accounts" + 8 =
      getRegionOffset (programInputRegions 1 [32] 32) "Account 1: Account Flags" := by
  have h := (c5_offsets_adjacent 1 (by omega) [32] 32).1 0
    { name := "Number of accounts", size := 8, color := "bg-blue-400",
      isPadding := false, subRegions := [] }
    { name := "Account 1: Account Flags", size := 4, color := "bg-green-400",
      isPadding := false,
      subRegions :=
        [ { name := "Is Duplicate", size := 1, color := "bg-green-300" },
          { name := "Is Signer", size := 1, color := "bg-green-400" },
          { name := "Is Writable", size := 1, color := "bg-green-500" },
          { name := "Is Executable", size := 1, color := "bg-green-600" } ] }
    (by decide) (by decide)
  exact h

/-! ## C7: little-endian encoding -/

/-- C7: for every value in [0, 2^64), `leBytes64` produces exactly eight
bytes, each in [0, 256); folding them back lowest-order-first reconstructs the
value (so the sequence is the unsigned 64-bit little-endian encoding, lowest
byte first, its first byte being `v mod 256`); and on 0x0102030405060708 the
bytes are [08,07,06,05,04,03,02,01], displayed by `toLittleEndian` as
"08 07 06 05 04 03 02 01". -/
theorem c7_little_endian (v : Int) (h0 : 0 ≤ v) (h1 : v < 2 ^ 64) :
    (leBytes64 v).length = 8 ∧
    (∀ b ∈ leBytes64 v, 0 ≤ b ∧ b < 256) ∧
    (leBytes64 v).foldr (fun b acc => b + 256 * acc) 0 = v ∧
    (leBytes64 v).getD 0 0 = v % 256 ∧
    leBytes64 0x0102030405060708 = [0x08, 0x07, 0x06, 0x05, 0x04, 0x03, 0x02, 0x01] ∧
    toLittleEndian 0x0102030405060708 = "08 07 06 05 04 03 02 01" := by
  have hv : v % 2 ^ 64 = v := Int.emod_eq_of_lt h0 h1
  have hr : List.range 8 = [0, 1, 2, 3, 4, 5, 6, 7] := rfl
  refine ⟨by simp [leBytes64], ?_, ?_, ?_, by decide, by decide⟩
  · intro b hb
    simp only [leBytes64, hr, List.map_cons, List.map_nil, List.mem_cons,
      List.not_mem_nil, or_false, hv] at hb
    rcases hb with rfl | rfl | rfl | rfl | rfl | rfl | rfl | rfl <;> norm_num <;> omega
  · simp only [leBytes64, hr, List.map_cons, List.map_nil, List.foldr_cons,
      List.foldr_nil, hv]
    norm_num
    omega
  · simp only [leBytes64, hr, List.map_cons, List.map_nil, List.getD_cons_zero, hv]
    norm_num

/-- Witness for C7 at the claim's concrete value. -/
theorem c7_little_endian_witness :
    (0 : Int) ≤ 0x0102030405060708 ∧ (0x0102030405060708 : Int) < 2 ^ 64 ∧
    (leBytes64 0x0102030405060708).foldr (fun b acc => b + 256 * acc) 0 = 0x0102030405060708 :=
  ⟨by decide, by decide, (c7_little_endian 0x0102030405060708 (by decide) (by decide)).2.2.1⟩

/-! ## C2: row count -/

/-- C2: for the "Program input parameters" section the row count is
max(16, ceil(totalLayoutSize / 16) + 1); for any other section it is
max(16, ceil((end − start + 1) / 16)) with no +1; every fixed catalog
section (width 0x100000000) yields 268435456 rows, and a dynamic-section
total layout size of 0 yields 16 rows. -/
theorem c2_row_count (st : State) :
    (st.selectedSection.name = "Program input parameters" →
      totalRows st = max 16 (totalNamedRegionSize (stRegions st) / 16 +
        (if totalNamedRegionSize (stRegions st) % 16 = 0 then 0 else 1) + 1)) ∧
    (st.selectedSection.name ≠ "Program input parameters" →
      totalRows st = max 16 ((st.selectedSection.endAddr - st.selectedSection.startAddr + 1) / 16 +
        (if (st.selectedSection.endAddr - st.selectedSection.startAddr + 1) % 16 = 0 then 0 else 1))) ∧
    (st.selectedSection ∈ MEMORY_SECTIONS → st.selectedSection.name ≠ "Program input parameters" →
      totalRows st = 268435456) ∧
    (st.selectedSection.name = "Program input parameters" →
      totalNamedRegionSize (stRegions st) = 0 → totalRows st = 16) := by
  refine ⟨?_, ?_, ?_, ?_⟩
  · intro h
    simp only [totalRows, maxRows, h, BYTES_PER_ROW, MIN_ROWS, jsCeilDiv_16_form]
    simp
  · intro h
    simp only [totalRows, maxRows, h, BYTES_PER_ROW, MIN_ROWS, jsCeilDiv_16_form]
    simp [h]
  · intro hmem hname
    simp only [MEMORY_SECTIONS, List.mem_cons, List.not_mem_nil, or_false] at hmem
    rcases hmem with h | h | h | h
    · simp only [totalRows, h]; rw [if_neg (by decide)]; decide
    · simp only [totalRows, h]; rw [if_neg (by decide)]; decide
    · simp only [totalRows, h]; rw [if_neg (by decide)]; decide
    · rw [h] at hname; exact absurd rfl hname
  · intro h htot
    simp only [totalRows, maxRows, h, htot, BYTES_PER_ROW, MIN_ROWS, jsCeilDiv]
    simp

/-- Witness for C2 at the initial state (total 10448 → 654 rows, the spec's
scenario number). -/
theorem c2_row_count_witness : totalRows initialState = 654 := by
  have h := (c2_row_count initialState).1 rfl
  rw [h]; decide

/-! ## C8: input coercion -/

/-- C8: for every input string, non-numeric input is coerced to 0 for the
unit count and both dynamic sizes; the parsed unit count is clamped into
[0, 64]; the dynamic sizes are stored exactly as parsed (no clamp). -/
theorem c8_input_coercion :
    (∀ (st : State) (input : String), jsParseInt input = none →
      (handleNumberOfAccountsChange st input).numberOfAccounts = 0 ∧
      (handleInstructionDataSizeChange st input).instructionDataSize = 0 ∧
      ∀ i, (handleAccountDataSizeChange st input i).accountDataSizes =
        st.accountDataSizes.set i 0) ∧
    (∀ (st : State) (input : String) (v : Int), jsParseInt input = some v →
      ((handleNumberOfAccountsChange st input).numberOfAccounts : Int) = min (max v 0) 64 ∧
      (v < 0 → (handleNumberOfAccountsChange st input).numberOfAccounts = 0) ∧
      (64 < v → (handleNumberOfAccountsChange st input).numberOfAccounts = 64) ∧
      (0 ≤ v → v ≤ 64 → ((handleNumberOfAccountsChange st input).numberOfAccounts : Int) = v) ∧
      (handleInstructionDataSizeChange st input).instructionDataSize = v ∧
      ∀ i, (handleAccountDataSizeChange st input i).accountDataSizes =
        st.accountDataSizes.set i v) := by
  constructor
  · intro st input h
    refine ⟨?_, ?_, fun i => ?_⟩ <;>
      simp [handleNumberOfAccountsChange, handleInstructionDataSizeChange,
        handleAccountDataSizeChange, h]
  · intro st input v h
    have hcast : (((min (max v 0) 64).toNat : Int)) = min (max v 0) 64 := by omega
    refine ⟨?_, ?_, ?_, ?_, ?_, fun i => ?_⟩ <;>
      simp [handleNumberOfAccountsChange, handleInstructionDataSizeChange,
        handleAccountDataSizeChange, h] <;> omega

/-- Witness for C8: the literal input "abc" parses to NaN and yields count 0;
"100" stores an unclamped size of 100 while the count clamps to 64. -/
theorem c8_input_coercion_witness :
    jsParseInt "abc" = none ∧
    (handleNumberOfAccountsChange initialState "abc").numberOfAccounts = 0 ∧
    jsParseInt "100" = some 100 ∧
    (handleInstructionDataSizeChange initialState "100").instructionDataSize = 100 ∧
    (handleNumberOfAccountsChange initialState "100").numberOfAccounts = 64 :=
  ⟨by decide,
   (c8_input_coercion.1 initialState "abc" (by decide)).1,
   by decide,
   (c8_input_coercion.2 initialState "100" 100 (by decide)).2.2.2.2.1,
   (c8_input_coercion.2 initialState "100" 100 (by decide)).2.2.1 (by decide)⟩

/-! ## C9: unit-count change preserves surviving sizes -/

/-- C9: after a unit-count change the per-unit size list has exactly the new
length; the first min(old, new) entries are unchanged; every appended entry is
the default 32; and the 2 → 5 → 2 round trip of the spec's scenario restores
the original two-entry list. -/
theorem c9_sizes_preserved (st : State) (input : String) :
    (handleNumberOfAccountsChange st input).accountDataSizes.length =
      (handleNumberOfAccountsChange st input).numberOfAccounts ∧
    (∀ i, i < st.accountDataSizes.length →
      i < (handleNumberOfAccountsChange st input).numberOfAccounts →
      (handleNumberOfAccountsChange st input).accountDataSizes[i]? =
        st.accountDataSizes[i]?) ∧
    (∀ i, st.accountDataSizes.length ≤ i →
      i < (handleNumberOfAccountsChange st input).numberOfAccounts →
      (handleNumberOfAccountsChange st input).accountDataSizes[i]? = some 32) ∧
    (∀ st₂ : State, st₂.accountDataSizes.length = 2 →
      (handleNumberOfAccountsChange (handleNumberOfAccountsChange st₂ "5") "2").accountDataSizes =
        st₂.accountDataSizes) := by
  have key : ∀ (l : List Int) (m : Nat),
      ((padSizesTo l m).take m).length = m ∧
      (∀ i, i < l.length → i < m → ((padSizesTo l m).take m)[i]? = l[i]?) ∧
      (∀ i, l.length ≤ i → i < m → ((padSizesTo l m).take m)[i]? = some 32) := by
    intro l m
    rw [padSizesTo_eq]
    refine ⟨?_, ?_, ?_⟩
    · simp [List.length_take, List.length_append, List.length_replicate]; omega
    · intro i hi him
      rw [List.getElem?_take_of_lt him, List.getElem?_append_left hi]
    · intro i hli him
      rw [List.getElem?_take_of_lt him,
        List.getElem?_append_right (by simpa using hli)]
      simp only [List.getElem?_replicate]
      rw [if_pos (by omega)]
  refine ⟨?_, ?_, ?_, ?_⟩
  · simpa [handleNumberOfAccountsChange] using
      (key st.accountDataSizes _).1
  · intro i h1 h2
    exact (key st.accountDataSizes _).2.1 i h1 h2
  · intro i h1 h2
    exact (key st.accountDataSizes _).2.2 i h1 h2
  · intro st₂ hlen
    have h5 : jsParseInt "5" = some 5 := by decide
    have h2 : jsParseInt "2" = some 2 := by decide
    have e5 : ((min (max (5 : Int) 0) 64).toNat) = 5 := by decide
    have e2 : ((min (max (2 : Int) 0) 64).toNat) = 2 := by decide
    simp only [handleNumberOfAccountsChange, h5, h2, e5, e2, padSizesTo_eq, hlen]
    have hL5 : (st₂.accountDataSizes ++ List.replicate (5 - 2) 32).take 5 =
        st₂.accountDataSizes ++ List.replicate 3 32 := by
      exact List.take_of_length_le (by simp [hlen])
    rw [hL5]
    have hlen5 : (st₂.accountDataSizes ++ List.replicate 3 32).length = 5 := by simp [hlen]
    rw [hlen5]
    norm_num
    rw [List.take_append_of_le_length (by omega)]
    exact List.take_of_length_le (by omega)

/-- Witness for C9: the spec's scenario with concrete sizes [10, 20]. -/
theorem c9_sizes_preserved_witness :
    (handleNumberOfAccountsChange
      (handleNumberOfAccountsChange
        { initialState with numberOfAccounts := 2, accountDataSizes := [10, 20] } "5") "2").accountDataSizes
      = [10, 20] :=
  (c9_sizes_preserved initialState "").2.2.2
    { initialState with numberOfAccounts := 2, accountDataSizes := [10, 20] } rfl

/-! ## getMemoryValue: branch dispatch -/

theorem leBytes64_getD (v : Int) (j : Nat) (hj : j < 8) :
    (leBytes64 v).getD j 0 = (v % 2 ^ 64) / 2 ^ (8 * j) % 256 := by
  rw [leBytes64, List.getD_eq_getElem?_getD, List.getElem?_map, List.getElem?_range hj]
  rfl

theorem contains_ads_self : ∀ k : Nat, k ≤ 64 → 1 ≤ k →
    containsSubstr (acctName (k : Int) "Account data size") "Account data size" = true ∧
    parsedUnitNumber (acctName (k : Int) "Account data size") = some (k : Int) := by
  decide

theorem noncontains_other : ∀ k : Nat, k < 64 → ∀ t ∈ ACCOUNT_REGIONS,
    t.name ≠ "Account data size" →
    containsSubstr (acctName ((k : Int) + 1) t.name) "Account data size" = false := by
  decide

theorem fixed_noncontains :
    containsSubstr "Number of accounts" "Account data size" = false ∧
    containsSubstr "Instruction data size" "Account data size" = false ∧
    containsSubstr "Instruction data" "Account data size" = false ∧
    containsSubstr "Program ID" "Account data size" = false := by
  decide

theorem rebuild_name (k : Int) :
    "Account " ++ jsNumToString (some k) ++ ": Account data size" =
      acctName k "Account data size" := by
  apply string_data_inj
  simp only [jsNumToString, acctName, String.data_append, List.append_assoc]
  rfl

/-- The per-account branch of `getMemoryValue`: when a valid per-unit
data-size field name is focused, the function reduces to the window test on
that field's offset. -/
theorem gmv_account_reduce (st : State) (k : Nat) (hk1 : 1 ≤ k) (hk64 : k ≤ 64)
    (hsec : st.selectedSection.name = "Program input parameters")
    (hf : st.focusedRegion = some (acctName (k : Int) "Account data size")) (index : Int) :
    getMemoryValue st index =
      if getRegionOffset (stRegions st) (acctName (k : Int) "Account data size") ≤ index ∧
          index < getRegionOffset (stRegions st) (acctName (k : Int) "Account data size") + 8 then
        hex2 ((leBytes64 (jsOrDefault st.accountDataSizes[k - 1]? 32)).getD
          (index - getRegionOffset (stRegions st) (acctName (k : Int) "Account data size")).toNat 0)
      else hex2 (index.tmod 256) := by
  have hc := (contains_ads_self k hk64 hk1).1
  have hp := (contains_ads_self k hk64 hk1).2
  have h0k : (0 : Int) ≤ (k : Int) - 1 := by omega
  have htn : ((k : Int) - 1).toNat = k - 1 := by omega
  rw [getMemoryValue, if_pos hsec, hf]
  simp only [hc, hp, Option.map_some', sub_add_cancel, rebuild_name, jsIndex,
    if_pos h0k, htn, if_true]

theorem gmv_numAccounts_reduce (st : State)
    (hsec : st.selectedSection.name = "Program input parameters")
    (hf : st.focusedRegion = some "Number of accounts") (index : Int) :
    getMemoryValue st index =
      if getRegionOffset (stRegions st) "Number of accounts" ≤ index ∧
          index < getRegionOffset (stRegions st) "Number of accounts" + 8 then
        hex2 ((leBytes64 (st.numberOfAccounts : Int)).getD
          (index - getRegionOffset (stRegions st) "Number of accounts").toNat 0)
      else hex2 (index.tmod 256) := by
  rw [getMemoryValue, if_pos hsec, hf]
  simp only [fixed_noncontains.1, Bool.false_eq_true, if_false]
  simp

theorem gmv_instruction_reduce (st : State)
    (hsec : st.selectedSection.name = "Program input parameters")
    (hf : st.focusedRegion = some "Instruction data size") (index : Int) :
    getMemoryValue st index =
      if getRegionOffset (stRegions st) "Instruction data size" ≤ index ∧
          index < getRegionOffset (stRegions st) "Instruction data size" + 8 then
        hex2 ((leBytes64 st.instructionDataSize).getD
          (index - getRegionOffset (stRegions st) "Instruction data size").toNat 0)
      else hex2 (index.tmod 256) := by
  rw [getMemoryValue, if_pos hsec, hf]
  simp only [fixed_noncontains.2.1, Bool.false_eq_true, if_false]
  simp

/-- The fallback branch: a focused region that is none of the three
integer-backed names leaves only the filler. -/
theorem gmv_other_reduce (st : State) (f : String)
    (hf : st.focusedRegion = some f)
    (ha : containsSubstr f "Account data size" = false)
    (hb : f ≠ "Instruction data size") (hc : f ≠ "Number of accounts") (index : Int) :
    getMemoryValue st index = hex2 (index.tmod 256) := by
  by_cases hs : st.selectedSection.name = "Program input parameters"
  · rw [getMemoryValue, if_pos hs, hf]
    simp only [ha, Bool.false_eq_true, if_false]
    rw [if_neg hb, if_neg hc]
  · rw [getMemoryValue, if_neg hs]

/-! ## C3: the synthetic filler pattern -/

/-- C3: whenever no region is focused, or the focused region is a layout
region other than the three integer-backed ones, or the byte offset lies
outside the focused integer-backed field's 8-byte span, the displayed value
is `byteOffset mod 256` — independent of the selected section, the layout and
all parameters (the formula itself repeats with period 256). -/
theorem c3_filler_pattern (st : State) (index : Int) (h0 : 0 ≤ index)
    (hn : st.numberOfAccounts ≤ 64)
    (hcond :
      st.focusedRegion = none ∨
      (∃ f, st.focusedRegion = some f ∧
        f ∈ (stRegions st).map Region.name ∧
        f ≠ "Number of accounts" ∧ f ≠ "Instruction data size" ∧
        (∀ k : Nat, f ≠ acctName ((k : Int) + 1) "Account data size")) ∨
      (∃ f, st.focusedRegion = some f ∧
        (f = "Number of accounts" ∨ f = "Instruction data size" ∨
          (∃ k : Nat, 1 ≤ k ∧ k ≤ st.numberOfAccounts ∧
            f = acctName (k : Int) "Account data size")) ∧
        (index < getRegionOffset (stRegions st) f ∨
          getRegionOffset (stRegions st) f + 8 ≤ index))) :
    getMemoryValue st index = hex2 (index % 256) := by
  rw [← tmod_256_of_nonneg index h0]
  rcases hcond with hf | ⟨f, hf, hmem, hnum, hinstr, hads⟩ | ⟨f, hf, hcase, hwin⟩
  · by_cases hs : st.selectedSection.name = "Program input parameters"
    · rw [getMemoryValue, if_pos hs, hf]
    · rw [getMemoryValue, if_neg hs]
  · have ha : containsSubstr f "Account data size" = false := by
      rw [stRegions, map_name_programInputRegions, layoutNames] at hmem
      rw [List.mem_cons, List.mem_append] at hmem
      rcases hmem with h | h | h
      · exact absurd h hnum
      · obtain ⟨i, hi, r, hr, rfl⟩ := mem_block_names h
        by_cases hadsr : r.name = "Account data size"
        · exact absurd (by rw [hadsr]) (hads i)
        · exact noncontains_other i (lt_of_lt_of_le hi hn) r hr hadsr
      · simp only [List.mem_cons, List.not_mem_nil, or_false] at h
        rcases h with rfl | rfl | rfl
        · exact absurd rfl hinstr
        · exact fixed_noncontains.2.2.1
        · exact fixed_noncontains.2.2.2
    exact gmv_other_reduce st f hf ha hinstr hnum index
  · by_cases hs : st.selectedSection.name = "Program input parameters"
    · rcases hcase with rfl | rfl | ⟨k, hk1, hkn, rfl⟩
      · rw [gmv_numAccounts_reduce st hs hf index, if_neg (by omega)]
      · rw [gmv_instruction_reduce st hs hf index, if_neg (by omega)]
      · rw [gmv_account_reduce st k hk1 (le_trans hkn hn) hs hf index, if_neg (by omega)]
    · rw [getMemoryValue, if_neg hs]

/-- Witness for C3: unfocused read at byte 100000 shows 100000 mod 256 = 0xa0. -/
theorem c3_filler_pattern_witness : getMemoryValue initialState 100000 = "a0" := by
  have h := c3_filler_pattern initialState 100000 (by decide) (by decide) (Or.inl rfl)
  rw [h]; decide

/-! ## C4: focused integer-backed fields display their little-endian bytes -/

/-- C4: when the focused region is one of the three integer-backed regions
(unit count, a valid per-unit data-size field, or the instruction data size)
and the byte offset lies within that field's 8-byte span, the displayed value
is the corresponding byte of the unsigned 64-bit little-endian encoding of
that integer's current (substituted) value. -/
theorem c4_focused_little_endian (st : State) (index : Int)
    (hn : st.numberOfAccounts ≤ 64)
    (hsec : st.selectedSection.name = "Program input parameters")
    (f : String) (v : Int) (hf : st.focusedRegion = some f)
    (hcase :
      (f = "Number of accounts" ∧ v = (st.numberOfAccounts : Int)) ∨
      (f = "Instruction data size" ∧ v = st.instructionDataSize) ∨
      (∃ k : Nat, 1 ≤ k ∧ k ≤ st.numberOfAccounts ∧
        f = acctName (k : Int) "Account data size" ∧
        v = jsOrDefault st.accountDataSizes[k - 1]? 32))
    (hlo : getRegionOffset (stRegions st) f ≤ index)
    (hhi : index < getRegionOffset (stRegions st) f + 8) :
    getMemoryValue st index =
      hex2 ((v % 2 ^ 64) / 2 ^ (8 * (index - getRegionOffset (stRegions st) f).toNat) % 256) := by
  have hj : (index - getRegionOffset (stRegions st) f).toNat < 8 := by omega
  rcases hcase with ⟨rfl, rfl⟩ | ⟨rfl, rfl⟩ | ⟨k, hk1, hkn, rfl, rfl⟩
  · rw [gmv_numAccounts_reduce st hsec hf index, if_pos ⟨hlo, hhi⟩, leBytes64_getD _ _ hj]
  · rw [gmv_instruction_reduce st hsec hf index, if_pos ⟨hlo, hhi⟩, leBytes64_getD _ _ hj]
  · rw [gmv_account_reduce st k hk1 (le_trans hkn hn) hsec hf index, if_pos ⟨hlo, hhi⟩,
      leBytes64_getD _ _ hj]

/-- Witness for C4: the spec's scenario — focusing "Account 2: Account data
size" (configured size 5) and reading its first byte yields 05, the low-order
byte of the little-endian encoding, not the filler (10456 mod 256 = 0xd8). -/
theorem c4_focused_little_endian_witness : getMemoryValue c4State 10456 = "05" := by
  have h := c4_focused_little_endian c4State 10456 (by decide) rfl
    (acctName (2 : Int) "Account data size") 5 (by decide)
    (Or.inr (Or.inr ⟨2, by omega, by decide, rfl, by decide⟩))
    (by decide) (by decide)
  rw [h]; decide

/-! ## C10: the zero/missing-size coercion to 32 -/

theorem layout_trailer_getElem? (n : Nat) (sizes : List Int) (instr : Int) (j : Nat) :
    (programInputRegions n sizes instr)[1 + (8 * n + j)]? =
      ((PROGRAM_REGIONS.drop 1).map (fun region =>
        if region.name = "Instruction data" then { region with size := instr } else region))[j]? := by
  rw [programInputRegions, List.append_assoc]
  rw [List.getElem?_append_right (by simp [PROGRAM_REGIONS])]
  have hidx : 1 + (8 * n + j) - (PROGRAM_REGIONS.take 1).length = 8 * n + j := by
    simp [PROGRAM_REGIONS]
  rw [hidx, List.getElem?_append_right (by rw [length_block]; omega), length_block]
  congr 1
  omega

/-- C10: a stored per-unit dynamic size that is missing or 0 is replaced by
the default 32 in the expansion (the unit's "Account data" region gets size
32), and `getMemoryValue` encodes 32 rather than 0 when that unit's size
field is focused; by contrast an instruction-data size of 0 is used as-is,
producing a size-0 "Instruction data" region. -/
theorem c10_zero_size_default (n : Nat) (sizes : List Int) (instr : Int) (i : Nat) (hi : i < n) :
    ((sizes[i]? = none ∨ sizes[i]? = some 0) →
      ((programInputRegions n sizes instr)[1 + (8 * i + 5)]?).map Region.size = some 32 ∧
      ((programInputRegions n sizes instr)[1 + (8 * i + 5)]?).map Region.name =
        some (acctName ((i : Int) + 1) "Account data")) ∧
    (∀ st : State, st.numberOfAccounts ≤ 64 →
      st.selectedSection.name = "Program input parameters" →
      st.focusedRegion = some (acctName ((i : Int) + 1) "Account data size") →
      i + 1 ≤ st.numberOfAccounts → st.accountDataSizes[i]? = some 0 →
      ∀ index : Int,
        getRegionOffset (stRegions st) (acctName ((i : Int) + 1) "Account data size") ≤ index →
        index < getRegionOffset (stRegions st) (acctName ((i : Int) + 1) "Account data size") + 8 →
        getMemoryValue st index =
          hex2 ((leBytes64 32).getD
            (index - getRegionOffset (stRegions st)
              (acctName ((i : Int) + 1) "Account data size")).toNat 0)) ∧
    ((programInputRegions n sizes 0)[1 + (8 * n + 1)]?).map Region.size = some 0 ∧
    ((programInputRegions n sizes 0)[1 + (8 * n + 1)]?).map Region.name = some "Instruction data" := by
  have hcast : ((i + 1 : Nat) : Int) = (i : Int) + 1 := by push_cast; ring
  refine ⟨?_, ?_, ?_, ?_⟩
  · intro hz
    rw [layout_block_getElem? n sizes instr i 5 hi (by omega)]
    have h5 : (ACCOUNT_REGIONS.map (instantiateAccountRegion sizes i))[5]? =
        some (instantiateAccountRegion sizes i
          { name := "Account data", size := 32, color := "bg-pink-400",
            isPadding := false, subRegions := [], isDynamic := true }) := rfl
    rw [h5]
    constructor
    · simp only [Option.map_some', instantiateAccountRegion]
      rcases hz with hz | hz <;> simp [hz, jsOrDefault]
    · rfl
  · intro st hn64 hsec hf hkn hz index hlo hhi
    rw [← hcast] at hf hlo hhi
    rw [gmv_account_reduce st (i + 1) (by omega) (le_trans hkn hn64) hsec hf index,
      if_pos ⟨hlo, hhi⟩]
    have : st.accountDataSizes[i + 1 - 1]? = some 0 := by simpa using hz
    rw [this]
    rfl
  · rw [layout_trailer_getElem? n sizes 0 1]
    rfl
  · rw [layout_trailer_getElem? n sizes 0 1]
    rfl

/-- Witness for C10: with one unit whose stored size is 0, the unit's data
region has size 32; with instruction data size 0, the "Instruction data"
region has size 0. -/
theorem c10_zero_size_default_witness :
    ((programInputRegions 1 [0] 32)[1 + (8 * 0 + 5)]?).map Region.size = some 32 ∧
    ((programInputRegions 1 [32] 0)[1 + (8 * 1 + 1)]?).map Region.size = some 0 :=
  ⟨((c10_zero_size_default 1 [0] 32 0 (by omega)).1 (Or.inr rfl)).1,
   (c10_zero_size_default 1 [32] 0 0 (by omega)).2.2.1⟩

/-! ## C6: color precedence (corrected) -/

theorem subScan_eq_subColorSpec (byteOffset : Int) :
    ∀ (subs : List SubRegion) (cur : Int),
      subRegionScan byteOffset cur subs = subColorSpec (byteOffset - cur) subs := by
  intro subs
  induction subs with
  | nil => intro cur; rfl
  | cons s rest ih =>
    intro cur
    rw [subRegionScan, subColorSpec]
    by_cases h : cur ≤ byteOffset ∧ byteOffset < cur + s.size
    · rw [if_pos h, if_pos (by omega)]
    · rw [if_neg h, if_neg (by omega), ih (cur + s.size)]
      congr 1
      ring

/-- The focused-branch body of the region loop agrees with the amended
precedence at the owning region. -/
theorem colorBody_eq (f : String) (x : Region) (acc byteOffset : Int) :
    (if (containsSubstr f "Account data size" && containsSubstr x.name "Account data") = true then
       x.color ++ " opacity-50"
     else if f = "Instruction data size" ∧ x.name = "Instruction data" then
       x.color ++ " opacity-50"
     else
       match (if f = x.name then subRegionScan byteOffset acc x.subRegions else none) with
       | some c => c
       | none => if f = x.name then x.color else "bg-gray-700") =
    amendedColor f acc x byteOffset := by
  rw [amendedColor]
  by_cases hA : (containsSubstr f "Account data size" &&
      containsSubstr x.name "Account data") = true
  · simp [hA]
  · by_cases hB : f = "Instruction data size" ∧ x.name = "Instruction data"
    · obtain ⟨hB1, hB2⟩ := hB
      simp [hA, hB1, hB2]
    · by_cases hf : f = x.name
      · subst hf
        by_cases hne : x.subRegions = []
        · simp [hA, hB, hne, subRegionScan]
        · rw [subScan_eq_subColorSpec byteOffset x.subRegions acc]
          rcases hsub : subColorSpec (byteOffset - acc) x.subRegions with _ | c <;>
            simp [hA, hB, hne, hsub]
      · simp [hA, hB, hf]

/-- The fused owner-location/precedence loop of `getRegionColor` agrees with
the spec-style two-step formulation: locate the owning region among the
materialised offsets, then apply the (amended) precedence. -/
theorem colorAux_eq (f : String) (byteOffset : Int) :
    ∀ (regions : List Region) (acc : Int),
      getRegionColorAux (some f) byteOffset acc regions =
        match (regionsWithOffsets acc regions).find?
            (fun p => decide (p.1 ≤ byteOffset ∧ byteOffset < p.1 + p.2.size)) with
        | some (off, r) => amendedColor f off r byteOffset
        | none => "bg-gray-800" := by
  intro regions
  induction regions with
  | nil => intro acc; rfl
  | cons x xs ih =>
    intro acc
    rw [regionsWithOffsets]
    by_cases h : acc ≤ byteOffset ∧ byteOffset < acc + x.size
    · rw [List.find?_cons_of_pos _ (by simpa using h)]
      rw [getRegionColorAux, if_pos h]
      exact colorBody_eq f x acc byteOffset
    · rw [List.find?_cons_of_neg _ (by simpa using h)]
      rw [getRegionColorAux, if_neg h, ih (acc + x.size)]

/-- Counterexample to C6 as stated: with two default accounts and
"Account 1: Account data size" focused, byte 88 is owned by that size field
itself. The claim's precedence (rule 1 requires the *corresponding data
field*; rules 2-3 then give the focused region its own color) predicts
"bg-indigo-400", but the code returns "bg-indigo-400 opacity-50" because its
first rule only checks the substrings "Account data size" / "Account data",
which also match the size field itself (and every other unit's data and
data-size fields). -/
theorem c6_counterexample :
    findOwner (stRegions c6State) 88 =
      some (88, { name := "Account 1: Account data size", size := 8, color := "bg-indigo-400",
                  isPadding := false, subRegions := [] }) ∧
    claimColor "Account 1: Account data size" 88
      { name := "Account 1: Account data size", size := 8, color := "bg-indigo-400",
        isPadding := false, subRegions := [] } 88 = "bg-indigo-400" ∧
    getRegionColor c6State 88 = "bg-indigo-400 opacity-50" ∧
    getRegionColor c6State 88 ≠
      claimColor "Account 1: Account data size" 88
        { name := "Account 1: Account data size", size := 8, color := "bg-indigo-400",
          isPadding := false, subRegions := [] } 88 := by
  refine ⟨by decide, by decide, by decide, by decide⟩

/-- C6 (amended): inside the variable-layout section with some region
focused, the color of a byte owned by a region is given by the amended
precedence `amendedColor`: (1) if the focused name contains "Account data
size" and the owning region's name contains "Account data" (all units' data
and data-size fields), or "Instruction data size" is focused and the owner is
"Instruction data", the owner's color at reduced emphasis; (2) if the owner
is the focused region and has sub-regions, the sub-region's color from a
second linear scan; (3) else if the owner is the focused region, its own
color; (4) else the dimmed unfocused tag. -/
theorem c6_color_precedence_amended (st : State) (f : String) (byteOffset : Int)
    (hsec : st.selectedSection.name = "Program input parameters")
    (hf : st.focusedRegion = some f)
    (off : Int) (r : Region)
    (hown : findOwner (stRegions st) byteOffset = some (off, r)) :
    getRegionColor st byteOffset = amendedColor f off r byteOffset := by
  rw [getRegionColor, if_neg (by simp [hsec]), hf, colorAux_eq]
  rw [findOwner] at hown
  rw [hown]

/-- Witness for C6 (amended): at byte 0 the owner is "Number of accounts",
unrelated to the focused size field, so the dimmed unfocused tag shows. -/
theorem c6_color_precedence_amended_witness : getRegionColor c6State 0 = "bg-gray-700" := by
  have h := c6_color_precedence_amended c6State "Account 1: Account data size" 0 rfl rfl 0
    { name := "Number of accounts", size := 8, color := "bg-blue-400",
      isPadding := false, subRegions := [] } (by decide)
  rw [h]; decide
